import Mathlib

/-!
Verification of the hummingbird front end: the hand-written recursive-descent
parser (`src/Parser.cpp`, namespace `HW` below) and the Bison-generated LALR
parser (`src/Parser/Parser.cpp`, namespace `Gen` below), each embedded
shallowly.  Fatal errors (`exit(1)` / uncaught exceptions / Bison abort) are
modelled as `Except.error`; unbounded loops and recursion take explicit fuel.
-/

deriving instance DecidableEq for Except

namespace HW

/-- Token kinds of the hand-written lexer (`src/Lexer.h`, extended with the
star kind that `src/Parser.cpp` dispatches on). -/
inductive Tok where
  | tEOF
  | tIdentifier
  | tInteger
  | tLet
  | tVar
  | tEquals
  | tPlus
  | tStar
  | tParentLeft
  | tParentRight
  | tUnrecognized
  deriving DecidableEq, Repr

/-- A token as delivered by the flex lexer: kind, lexeme text (`YYText`) and
source line (`lineno`). -/
structure Token where
  kind : Tok
  text : String
  line : Nat
  deriving DecidableEq, Repr

/-- `PInfixOp` from `src/Parser.h`. -/
inductive PInfixOp where
  | add
  | multiply
  deriving DecidableEq, Repr

/-- `PNode` of the hand-written lineage: exactly the variants that
`src/Parser.cpp` constructs and debug-prints. -/
inductive PNode where
  | assignment (lhs rhs : PNode)
  | identifier (value : String)
  | infixExpr (lhs : PNode) (op : PInfixOp) (rhs : PNode)
  | integerLiteral (value : Int)
  | plet (lhs : String) (rhs : PNode)
  | pvar (lhs : String) (rhs : PNode)
  | unknown
  deriving DecidableEq, Repr

/-- `PNode::isUnknown`. -/
def PNode.isUnknown : PNode → Bool
  | .unknown => true
  | _ => false

/-- Recursively: no `Unknown` sentinel anywhere in the tree. -/
def PNode.noUnknown : PNode → Bool
  | .assignment l r => l.noUnknown && r.noUnknown
  | .identifier _ => true
  | .infixExpr l _ r => l.noUnknown && r.noUnknown
  | .integerLiteral _ => true
  | .plet _ r => r.noUnknown
  | .pvar _ r => r.noUnknown
  | .unknown => false

/-- Parser state: the remaining token stream of the lexer, the lexer's
`YYText`/`lineno`, and the `Parser` members of `src/Parser/Parser.h`
(`peeking`, `currentToken`, `currentText`, `peekedToken`, `peekedText`). -/
structure PSt where
  toks : List Token
  yytext : String
  lineno : Nat
  currentToken : Tok
  currentText : String
  peeking : Bool
  peekedToken : Tok
  peekedText : String
  deriving DecidableEq, Repr

/-- `lexer->yylex()`: pop the next token (0 = `T_EOF` at end of input),
updating `YYText` and `lineno`. -/
def yylex (s : PSt) : Tok × PSt :=
  match s.toks with
  | [] => (.tEOF, { s with yytext := "" })
  | t :: ts => (t.kind, { s with toks := ts, yytext := t.text, lineno := t.line })

/-- `Parser::next`. -/
def next (s : PSt) : Tok × PSt :=
  if s.peeking then
    (s.peekedToken,
      { s with currentToken := s.peekedToken, currentText := s.peekedText,
               peeking := false })
  else
    let p := yylex s
    (p.1, { p.2 with currentToken := p.1 })

/-- `Parser::text`. -/
def text (s : PSt) : String :=
  if s.peeking then s.currentText else s.yytext

/-- `Parser::peek`. -/
def peek (s : PSt) : Tok × PSt :=
  if s.peeking then (s.peekedToken, s)
  else
    let p := yylex s
    (p.1, { p.2 with peeking := true, peekedToken := p.1, peekedText := p.2.yytext })

/-- The fatal-error outcomes of the hand-written parser (each is an
`exit(1)` in the source), plus fuel exhaustion of the embedding. -/
inductive PErr where
  | unexpectedToken (expected actual : Tok) (line : Nat)
  | unrecognizedToken (t : Tok) (line : Nat)
  | unmatchedNode (line : Nat)
  | stollError
  | outOfFuel
  deriving DecidableEq, Repr

/-- `Parser::expect`. -/
def expect (expected : Tok) (s : PSt) : Except PErr (Tok × PSt) :=
  let p := next s
  if p.1 = expected then .ok p
  else .error (.unexpectedToken expected p.1 p.2.lineno)

/-- Whitespace as accepted by `std::stoll` (C locale `isspace`). -/
def isSpaceChar (c : Char) : Bool :=
  c = ' ' || c = '\t' || c = '\n' || c = '\x0b' || c = '\x0c' || c = '\r'

/-- Numeric value of a digit string. -/
def digitsVal (ds : List Char) : Nat :=
  ds.foldl (fun a c => a * 10 + (c.toNat - '0'.toNat)) 0

def int64Min : Int := -9223372036854775808

def int64Max : Int := 9223372036854775807

/-- `std::stoll` (base 10): skip whitespace, optional sign, a nonempty run
of digits (trailing characters ignored); `invalid_argument` when there is no
digit, `out_of_range` when the value exceeds `long long`. -/
def stoll (s : String) : Except Unit Int :=
  let cs := s.data.dropWhile isSpaceChar
  let signed : Int × List Char :=
    match cs with
    | '-' :: r => (-1, r)
    | '+' :: r => (1, r)
    | _ => (1, cs)
  let ds := signed.2.takeWhile Char.isDigit
  if ds.isEmpty then .error ()
  else
    let v : Int := signed.1 * digitsVal ds
    if v < int64Min ∨ int64Max < v then .error () else .ok v

/-- `Parser::parseIdentifier`: the `fatalTokenError` branch exits before the
dead `return new PNode()`, so a non-identifier token is a fatal error. -/
def parseIdentifier (token : Tok) (s : PSt) : Except PErr (PNode × PSt) :=
  if token = .tIdentifier then .ok (.identifier (text s), s)
  else .error (.unrecognizedToken token s.lineno)

mutual

/-- `Parser::parseStatement`. -/
def parseStatement : Nat → Tok → PSt → Except PErr (PNode × PSt)
  | 0, _, _ => .error .outOfFuel
  | fuel + 1, token, s =>
    match token with
    | .tLet => parseLet fuel token s
    | .tVar => parseVar fuel token s
    | _ => parseExpression fuel token s

/-- `Parser::parseExpression`. -/
def parseExpression : Nat → Tok → PSt → Except PErr (PNode × PSt)
  | 0, _, _ => .error .outOfFuel
  | fuel + 1, token, s => parseAddition fuel token s

/-- `Parser::parseAddition`: right operand recurses on `parseAddition`. -/
def parseAddition : Nat → Tok → PSt → Except PErr (PNode × PSt)
  | 0, _, _ => .error .outOfFuel
  | fuel + 1, token, s =>
    match parseMultiplication fuel token s with
    | .error e => .error e
    | .ok (lhs, s1) =>
      let p := peek s1
      if p.1 = .tPlus then
        match expect .tPlus p.2 with
        | .error e => .error e
        | .ok (_, s2) =>
          let n := next s2
          match parseAddition fuel n.1 n.2 with
          | .error e => .error e
          | .ok (rhs, s3) => .ok (.infixExpr lhs .add rhs, s3)
      else .ok (lhs, p.2)

/-- `Parser::parseMultiplication`: right operand recurses on
`parseMultiplication`. -/
def parseMultiplication : Nat → Tok → PSt → Except PErr (PNode × PSt)
  | 0, _, _ => .error .outOfFuel
  | fuel + 1, token, s =>
    match parseLiteral fuel token s with
    | .error e => .error e
    | .ok (lhs, s1) =>
      let p := peek s1
      if p.1 = .tStar then
        match expect .tStar p.2 with
        | .error e => .error e
        | .ok (_, s2) =>
          let n := next s2
          match parseMultiplication fuel n.1 n.2 with
          | .error e => .error e
          | .ok (rhs, s3) => .ok (.infixExpr lhs .multiply rhs, s3)
      else .ok (lhs, p.2)

/-- `Parser::parseLiteral`: integer tokens via `std::stoll`, everything else
falls through to `parseAssignment`. -/
def parseLiteral : Nat → Tok → PSt → Except PErr (PNode × PSt)
  | 0, _, _ => .error .outOfFuel
  | fuel + 1, token, s =>
    match token with
    | .tInteger =>
      match stoll (text s) with
      | .error _ => .error .stollError
      | .ok v => .ok (.integerLiteral v, s)
    | _ => parseAssignment fuel token s

/-- `Parser::parseAssignment`: greedy right-hand side via
`parseExpression`. -/
def parseAssignment : Nat → Tok → PSt → Except PErr (PNode × PSt)
  | 0, _, _ => .error .outOfFuel
  | fuel + 1, token, s =>
    match parseIdentifier token s with
    | .error e => .error e
    | .ok (lhs, s1) =>
      let p := peek s1
      if p.1 = .tEquals then
        match expect .tEquals p.2 with
        | .error e => .error e
        | .ok (_, s2) =>
          let n := next s2
          match parseExpression fuel n.1 n.2 with
          | .error e => .error e
          | .ok (rhs, s3) => .ok (.assignment lhs rhs, s3)
      else .ok (lhs, p.2)

/-- `Parser::parseLet`. -/
def parseLet : Nat → Tok → PSt → Except PErr (PNode × PSt)
  | 0, _, _ => .error .outOfFuel
  | fuel + 1, _, s =>
    match expect .tIdentifier s with
    | .error e => .error e
    | .ok (_, s1) =>
      let lhs := text s1
      match expect .tEquals s1 with
      | .error e => .error e
      | .ok (_, s2) =>
        let n := next s2
        match parseExpression fuel n.1 n.2 with
        | .error e => .error e
        | .ok (rhs, s3) => .ok (.plet lhs rhs, s3)

/-- `Parser::parseVar`. -/
def parseVar : Nat → Tok → PSt → Except PErr (PNode × PSt)
  | 0, _, _ => .error .outOfFuel
  | fuel + 1, _, s =>
    match expect .tIdentifier s with
    | .error e => .error e
    | .ok (_, s1) =>
      let lhs := text s1
      match expect .tEquals s1 with
      | .error e => .error e
      | .ok (_, s2) =>
        let n := next s2
        match parseExpression fuel n.1 n.2 with
        | .error e => .error e
        | .ok (rhs, s3) => .ok (.pvar lhs rhs, s3)

end

/-- The `Unknown` guard of `Parser::parseRoot`: an `Unknown` statement node
is the fatal `fatalNodeError` ("Unmatched node"). -/
def rootCheck (node : PNode) (s : PSt) : Except PErr PNode :=
  if node.isUnknown then .error (.unmatchedNode s.lineno) else .ok node

/-- `Parser::parseRoot`: loop statements until `T_EOF`. -/
def parseRoot : Nat → PSt → Except PErr (List PNode × PSt)
  | 0, _ => .error .outOfFuel
  | fuel + 1, s =>
    let n := next s
    match n.1 with
    | .tEOF => .ok ([], n.2)
    | token =>
      match parseStatement fuel token n.2 with
      | .error e => .error e
      | .ok (node, s1) =>
        match rootCheck node s1 with
        | .error e => .error e
        | .ok node =>
          match parseRoot fuel s1 with
          | .error e => .error e
          | .ok (rest, s2) => .ok (node :: rest, s2)

/-- Fresh parser state over a token stream (`Parser::Parser`). -/
def initSt (toks : List Token) : PSt :=
  { toks := toks, yytext := "", lineno := 1, currentToken := .tEOF,
    currentText := "", peeking := false, peekedToken := .tEOF, peekedText := "" }

/-- `Parser::parse`: the root's node list. -/
def parse (fuel : Nat) (toks : List Token) : Except PErr (List PNode) :=
  match parseRoot fuel (initSt toks) with
  | .error e => .error e
  | .ok (nodes, _) => .ok nodes

/-- Identifier token on line 1. -/
def idT (s : String) : Token := ⟨.tIdentifier, s, 1⟩

/-- Integer token on line 1. -/
def intT (s : String) : Token := ⟨.tInteger, s, 1⟩

/-- Punctuation/keyword token on line 1. -/
def tk (k : Tok) (txt : String) : Token := ⟨k, txt, 1⟩

/-- Iterated `peek`: `peekN n` performs `n + 1` consecutive peeks. -/
def peekN : Nat → PSt → Tok × PSt
  | 0, s => peek s
  | n + 1, s => peekN n (peek s).2

/-- `a * b = c + d`. -/
def c1toks : List Token :=
  [idT "a", tk .tStar "*", idT "b", tk .tEquals "=",
   idT "c", tk .tPlus "+", idT "d"]

/-- `a + b + c`. -/
def c3plusToks : List Token :=
  [idT "a", tk .tPlus "+", idT "b", tk .tPlus "+", idT "c"]

/-- `a * b * c`. -/
def c3starToks : List Token :=
  [idT "a", tk .tStar "*", idT "b", tk .tStar "*", idT "c"]

/-- `f(1, 2` — the comma is not a token kind of the hand-written lexer and
would come out unrecognized, but the parse fails before reaching it. -/
def c6toks : List Token :=
  [idT "f", tk .tParentLeft "(", intT "1", tk .tUnrecognized ",", intT "2"]

/-- `let x = 1 + 2 * 3`. -/
def c9toks : List Token :=
  [tk .tLet "let", idT "x", tk .tEquals "=",
   intT "1", tk .tPlus "+", intT "2", tk .tStar "*", intT "3"]

/-- A state with a buffered peek (`peeking = true`). -/
def c7peekSt : PSt :=
  { toks := [idT "b"], yytext := "+", lineno := 1, currentToken := .tIdentifier,
    currentText := "a", peeking := true, peekedToken := .tPlus, peekedText := "+" }

/-- A state whose current lexeme is `42`. -/
def c8okSt : PSt := { initSt [] with yytext := "42" }

/-- A state whose current lexeme has no digits. -/
def c8badSt : PSt := { initSt [] with yytext := "x" }

end HW

namespace Gen

/-- `PNode` of the generated-parser lineage (`src/Parser/Nodes.h`): the full
variant set, including the `PIndexer` and `PInfix` variants that no semantic
action of the generated parser ever constructs.  The integer-literal node
stores the lexeme string the reduction action passes to it. -/
inductive GNode where
  | assignment (lhs rhs : GNode)
  | call (target : GNode) (arguments : List GNode)
  | identifier (value : String)
  | indexer (receiver expression : GNode)
  | infixExpr (lhs : GNode) (op : HW.PInfixOp) (rhs : GNode)
  | integerLiteral (lexeme : String)
  | plet (lhs : String) (rhs : GNode)
  | property (receiver : GNode) (name : String)
  | pvar (lhs : String) (rhs : GNode)
  | unknown

/-- `PNode::isCall` (`src/Parser/Nodes.h`). -/
def GNode.isCall : GNode → Bool
  | .call _ _ => true
  | _ => false

/-- Fatal outcomes of the generated parser: the `PAssignment` constructor's
`exit(1)`, Bison's abort on a syntax error (the grammar has no `error`
productions, so error recovery always aborts), and fuel exhaustion. -/
inductive GErr where
  | assignToCall
  | syntaxError
  | outOfFuel
  deriving DecidableEq, Repr

/-- The `PAssignment` constructor (`src/Parser/Nodes.cpp`): constructing an
assignment whose target is a `PCall` is fatal ("Cannot assign to result of a
call"). -/
def mkPAssignment (lhs rhs : GNode) : Except GErr GNode :=
  if lhs.isCall then .error .assignToCall else .ok (.assignment lhs rhs)

/-- A Bison semantic value: `PNode*`, `std::string`,
`std::vector<PNode*>`, or no value. -/
inductive YYVal where
  | node (n : GNode)
  | str (s : String)
  | nodes (l : List GNode)
  | vunit

/-! The LALR tables of `yy::parser` (`src/Parser/Parser.cpp`), transcribed
verbatim.  Terminal symbol numbers follow `yytname_`: 0 end-of-file,
6 COMMA, 9 DOT, 10 EQUALS, 11 IDENTIFIER, 12 INTEGER, 13 LET,
16 PAREN_LEFT, 17 PAREN_RIGHT, 18 PLUS, 20 STAR, 22 TERMINAL, 24 VAR;
nonterminals start at 25 ($accept), with 26 program, 27 statements,
28 statement, 29 let, 30 var, 31 expression, 32 infix-expression,
33 infix-op, 34 assignment, 35 chain, 36 chain_call, 37 chain_property,
38 call_arguments, 39 atom, 40 identifier, 41 literal, 42 terminals. -/

def yypact : List Int :=
  [-5, -30, -30, 0, 2, 20, -30, -5, -1, -1,
   -1, -30, -8, -7, -30, -30, -30, 12, 13, -30,
   -30, -30, 3, 3, 3, -30, -30, 4, 15, 4,
   4, -30, -30, 4, 4, -30, -30, -30, -30, 18,
   10, -30, -30, 4, -30, -30]

def yydefact : List Nat :=
  [0, 26, 27, 0, 0, 0, 2, 4, 0, 0,
   0, 10, 12, 16, 19, 24, 25, 0, 0, 1,
   3, 29, 6, 7, 5, 13, 14, 0, 0, 0,
   0, 17, 18, 0, 0, 28, 11, 21, 15, 23,
   0, 8, 9, 0, 20, 22]

def yypgoto : List Int :=
  [-30, -30, 21, -30, -30, -30, -29, 5, -30, -30,
   -30, -30, -30, -14, -30, -30, -30, 8]

def yydefgoto : List Int :=
  [-1, 5, 6, 7, 8, 9, 10, 11, 27, 12,
   13, 31, 32, 40, 14, 15, 16, 22]

def yytable : List Int :=
  [38, 39, 28, 29, 41, 42, 1, 2, 3, 30,
   25, 17, 26, 18, 39, 1, 2, 23, 24, 4,
   19, 21, 33, 34, 43, 35, 37, 44, 20, 45,
   0, 0, 36]

def yycheck : List Int :=
  [29, 30, 9, 10, 33, 34, 11, 12, 13, 16,
   18, 11, 20, 11, 43, 11, 12, 9, 10, 24,
   0, 22, 10, 10, 6, 22, 11, 17, 7, 43,
   -1, -1, 27]

def yyr1 : List Nat :=
  [0, 25, 26, 27, 27, 28, 28, 28, 29, 30,
   31, 32, 32, 33, 33, 34, 34, 35, 35, 35,
   36, 37, 38, 38, 39, 39, 40, 41, 42, 42]

def yyr2 : List Nat :=
  [0, 2, 1, 2, 1, 2, 2, 2, 4, 4,
   1, 3, 1, 1, 1, 3, 1, 2, 2, 1,
   3, 2, 3, 1, 1, 1, 1, 1, 2, 1]

def yypactNinf : Int := -30

def yytableNinf : Int := -1

/-- `yylast_`: highest index of `yytable_`/`yycheck_` (33 entries). -/
def yylast : Int := 32

/-- `yyntokens_`: 25 terminal symbols (`yytname_` up to and excluding
$accept). -/
def yyntokens : Nat := 25

/-- `yyfinal_`: the state reached by shifting end-of-file from the start
chain — the unique state `s` with `yystos_[s] = 0` reachable via
`yytable_`, namely 19. -/
def yyfinal : Nat := 19

/-- A terminal as handed to the parser: Bison-internal symbol number plus
lexeme (only IDENTIFIER and INTEGER carry one). -/
structure GTok where
  kind : Nat
  text : String
  deriving DecidableEq, Repr

/-- Engine state: the parse stack (top first, pairs of automaton state and
semantic value), the lookahead slot `yyla`, the remaining token stream, and
the `Driver`'s root (set by the `program := statements` reduction). -/
structure GSt where
  stack : List (Nat × YYVal)
  la : Option GTok
  toks : List GTok
  root : Option (List GNode)

/-- Read the lookahead: reuse `yyla` if nonempty, otherwise draw the next
token from the stream (end-of-file once exhausted). -/
def getLa (s : GSt) : GTok × GSt :=
  match s.la with
  | some t => (t, s)
  | none =>
    match s.toks with
    | [] => (⟨0, ""⟩, { s with la := some ⟨0, ""⟩ })
    | t :: ts => (t, { s with la := some t, toks := ts })

/-- Semantic value carried by a shifted terminal (IDENTIFIER and INTEGER
carry their lexeme). -/
def tokVal (t : GTok) : YYVal :=
  if t.kind = 11 ∨ t.kind = 12 then .str t.text else .vunit

/-- `value.as<PNode*>()` — well-typed in every run the tables produce. -/
def getNode : YYVal → GNode
  | .node n => n
  | _ => .unknown

/-- `value.as<std::string>()`. -/
def getStr : YYVal → String
  | .str s => s
  | _ => ""

/-- `value.as<std::vector<PNode*>>()`. -/
def getNodes : YYVal → List GNode
  | .nodes l => l
  | _ => []

/-- `yystack_[i].value` (0 = top of stack). -/
def slot (st : GSt) (i : Nat) : YYVal :=
  (st.stack.getD i (0, .vunit)).2

/-- `yy_lr_goto_state_`. -/
def lrGoto (below : Nat) (sym : Nat) : Nat :=
  let r := yypgoto.getD (sym - yyntokens) 0 + Int.ofNat below
  if 0 ≤ r ∧ r ≤ yylast ∧ yycheck.getD r.toNat 0 = Int.ofNat below then
    (yytable.getD r.toNat 0).toNat
  else (yydefgoto.getD (sym - yyntokens) 0).toNat

/-- The semantic action of rule `r` (the reduction switch of
`yy::parser::parse`): the produced value, and the new root for rule 2.
Rule 11 (`infix := infix infix_op infix`) returns its *first* symbol,
discarding the operator and the right operand; rule 15 invokes the
checked `PAssignment` constructor. -/
def reduceVal (r : Nat) (st : GSt) : Except GErr (YYVal × Option (List GNode)) :=
  match r with
  | 2 => .ok (.vunit, some (getNodes (slot st 0)))
  | 3 => .ok (.nodes (getNode (slot st 1) :: getNodes (slot st 0)), none)
  | 4 => .ok (.nodes [getNode (slot st 0)], none)
  | 5 => .ok (.node (getNode (slot st 1)), none)
  | 6 => .ok (.node (getNode (slot st 1)), none)
  | 7 => .ok (.node (getNode (slot st 1)), none)
  | 8 => .ok (.node (.plet (getStr (slot st 2)) (getNode (slot st 0))), none)
  | 9 => .ok (.node (.pvar (getStr (slot st 2)) (getNode (slot st 0))), none)
  | 10 => .ok (.node (getNode (slot st 0)), none)
  | 11 => .ok (.node (getNode (slot st 2)), none)
  | 12 => .ok (.node (getNode (slot st 0)), none)
  | 15 =>
    match mkPAssignment (getNode (slot st 2)) (getNode (slot st 0)) with
    | .error e => .error e
    | .ok n => .ok (.node n, none)
  | 16 => .ok (.node (getNode (slot st 0)), none)
  | 17 => .ok (.node (.call (getNode (slot st 1)) (getNodes (slot st 0))), none)
  | 18 => .ok (.node (.property (getNode (slot st 1)) (getStr (slot st 0))), none)
  | 19 => .ok (.node (getNode (slot st 0)), none)
  | 20 => .ok (.nodes (getNodes (slot st 1)), none)
  | 21 => .ok (.str (getStr (slot st 0)), none)
  | 22 => .ok (.nodes (getNode (slot st 2) :: getNodes (slot st 0)), none)
  | 23 => .ok (.nodes [getNode (slot st 0)], none)
  | 24 => .ok (.node (getNode (slot st 0)), none)
  | 25 => .ok (.node (getNode (slot st 0)), none)
  | 26 => .ok (.node (.identifier (getStr (slot st 0))), none)
  | 27 => .ok (.node (.integerLiteral (getStr (slot st 0))), none)
  | _ => .ok (.vunit, none)

/-- One `yyreduce` step: run the action of rule `r`, pop `yyr2_[r]`
symbols, push the goto state with the produced value. -/
def reduceBy (r : Nat) (st : GSt) : Except GErr GSt :=
  match reduceVal r st with
  | .error e => .error e
  | .ok (v, newRoot) =>
    let len := yyr2.getD r 0
    let rest := st.stack.drop len
    let below := (rest.headD (0, .vunit)).1
    let g := lrGoto below (yyr1.getD r 0)
    .ok { st with
          stack := (g, v) :: rest,
          root := match newRoot with
                  | some l => some l
                  | none => st.root }

/-- Outcome of one iteration of the driver loop. -/
inductive Step where
  | accept (root : Option (List GNode))
  | fail (e : GErr)
  | cont (st : GSt)

/-- One iteration of `yy::parser::parse` (the `yynewstate`/`yybackup`/
`yydefault`/`yyreduce` cycle): accept in `yyfinal_`; otherwise consult
`yypact_` — default-reduce without lookahead when it is `yypact_ninf_`,
otherwise read the lookahead and shift, reduce, or raise a syntax error as
the tables dictate.  A syntax error always aborts: the grammar has no
`error` productions (`yycheck_` contains no entry for terminal 1), so
`yyerrlab1` pops the whole stack and `YYABORT`s. -/
def gstep (st : GSt) : Step :=
  let state := (st.stack.headD (0, .vunit)).1
  if state = yyfinal then .accept st.root
  else
    let pa := yypact.getD state 0
    if pa = yypactNinf then
      let r := yydefact.getD state 0
      if r = 0 then .fail .syntaxError
      else
        match reduceBy r st with
        | .error e => .fail e
        | .ok st1 => .cont st1
    else
      let p := getLa st
      let tok := p.1
      let st1 := p.2
      let idx := pa + Int.ofNat tok.kind
      if idx < 0 ∨ yylast < idx ∨ yycheck.getD idx.toNat 0 ≠ Int.ofNat tok.kind then
        let r := yydefact.getD state 0
        if r = 0 then .fail .syntaxError
        else
          match reduceBy r st1 with
          | .error e => .fail e
          | .ok st2 => .cont st2
      else
        let act := yytable.getD idx.toNat 0
        if act ≤ 0 then
          if act = yytableNinf then .fail .syntaxError
          else
            match reduceBy (-act).toNat st1 with
            | .error e => .fail e
            | .ok st2 => .cont st2
        else
          .cont { st1 with stack := (act.toNat, tokVal tok) :: st1.stack,
                           la := none }

/-- The LALR driver loop, with fuel for the unbounded iteration. -/
def gloop : Nat → GSt → Except GErr (Option (List GNode))
  | 0, _ => .error .outOfFuel
  | fuel + 1, st =>
    match gstep st with
    | .accept r => .ok r
    | .fail e => .error e
    | .cont st1 => gloop fuel st1

/-- `Driver::parse` over a token stream: run the automaton from state 0;
on accept, the root set by the `program` reduction. -/
def parse (fuel : Nat) (toks : List GTok) : Except GErr (Option (List GNode)) :=
  gloop fuel { stack := [(0, .vunit)], la := none, toks := toks, root := none }

/-- IDENTIFIER terminal. -/
def idG (s : String) : GTok := ⟨11, s⟩

/-- INTEGER terminal. -/
def intG (s : String) : GTok := ⟨12, s⟩

/-- COMMA. -/
def commaG : GTok := ⟨6, ","⟩

/-- DOT. -/
def dotG : GTok := ⟨9, "."⟩

/-- EQUALS. -/
def eqG : GTok := ⟨10, "="⟩

/-- PAREN_LEFT. -/
def lpG : GTok := ⟨16, "("⟩

/-- PAREN_RIGHT. -/
def rpG : GTok := ⟨17, ")"⟩

/-- PLUS. -/
def plusG : GTok := ⟨18, "+"⟩

/-- TERMINAL (statement terminator). -/
def termG : GTok := ⟨22, ";"⟩

mutual

/-- No assignment anywhere in the node has a `Call` target. -/
def noCallTgt : GNode → Bool
  | .assignment l r => !l.isCall && noCallTgt l && noCallTgt r
  | .call t args => noCallTgt t && noCallTgtList args
  | .identifier _ => true
  | .indexer r e => noCallTgt r && noCallTgt e
  | .infixExpr l _ r => noCallTgt l && noCallTgt r
  | .integerLiteral _ => true
  | .plet _ r => noCallTgt r
  | .property r _ => noCallTgt r
  | .pvar _ r => noCallTgt r
  | .unknown => true

/-- `noCallTgt` over a node list. -/
def noCallTgtList : List GNode → Bool
  | [] => true
  | n :: ns => noCallTgt n && noCallTgtList ns

end

mutual

/-- No `PInfix` node anywhere in the tree. -/
def noInfixNode : GNode → Bool
  | .assignment l r => noInfixNode l && noInfixNode r
  | .call t args => noInfixNode t && noInfixNodeList args
  | .identifier _ => true
  | .indexer r e => noInfixNode r && noInfixNode e
  | .infixExpr _ _ _ => false
  | .integerLiteral _ => true
  | .plet _ r => noInfixNode r
  | .property r _ => noInfixNode r
  | .pvar _ r => noInfixNode r
  | .unknown => true

/-- `noInfixNode` over a node list. -/
def noInfixNodeList : List GNode → Bool
  | [] => true
  | n :: ns => noInfixNode n && noInfixNodeList ns

end

/-- The invariant carried through the engine, parametrised by a node
predicate and its list counterpart: every semantic value on the stack and
the root (once set) satisfy it. -/
def valInv (P : GNode → Bool) (PL : List GNode → Bool) : YYVal → Prop
  | .node n => P n = true
  | .str _ => True
  | .nodes l => PL l = true
  | .vunit => True

/-- Stack-and-root invariant. -/
def stInv (P : GNode → Bool) (PL : List GNode → Bool) (st : GSt) : Prop :=
  (∀ p ∈ st.stack, valInv P PL p.2) ∧ (∀ l, st.root = some l → PL l = true)

/-- A node predicate closed under every construction the semantic actions
of the generated parser perform (note: no closure condition for `PInfix` or
`PIndexer` is demanded — no action builds them — and the assignment
condition may assume the target is not a call, which the `PAssignment`
constructor enforces). -/
structure NodePred where
  P : GNode → Bool
  PL : List GNode → Bool
  hnil : PL [] = true
  hcons : ∀ n ns, P n = true → PL ns = true → PL (n :: ns) = true
  hunk : P .unknown = true
  hassign : ∀ l r, l.isCall = false → P l = true → P r = true →
    P (.assignment l r) = true
  hcall : ∀ t args, P t = true → PL args = true → P (.call t args) = true
  hident : ∀ v, P (.identifier v) = true
  hint : ∀ v, P (.integerLiteral v) = true
  hlet : ∀ v r, P r = true → P (.plet v r) = true
  hvar : ∀ v r, P r = true → P (.pvar v r) = true
  hprop : ∀ r v, P r = true → P (.property r v) = true

/-- `noCallTgt` is closed under the generated parser's constructions. -/
def noCallPred : NodePred where
  P := noCallTgt
  PL := noCallTgtList
  hnil := rfl
  hcons := by intro n ns h1 h2; simp [noCallTgtList, h1, h2]
  hunk := rfl
  hassign := by intro l r h1 h2 h3; simp [noCallTgt, h1, h2, h3]
  hcall := by intro t args h1 h2; simp [noCallTgt, h1, h2]
  hident := by intro v; rfl
  hint := by intro v; rfl
  hlet := by intro v r h1; simp [noCallTgt, h1]
  hvar := by intro v r h1; simp [noCallTgt, h1]
  hprop := by intro r v h1; simp [noCallTgt, h1]

/-- `noInfixNode` is closed under the generated parser's constructions. -/
def noInfixPred : NodePred where
  P := noInfixNode
  PL := noInfixNodeList
  hnil := rfl
  hcons := by intro n ns h1 h2; simp [noInfixNodeList, h1, h2]
  hunk := rfl
  hassign := by intro l r _ h2 h3; simp [noInfixNode, h2, h3]
  hcall := by intro t args h1 h2; simp [noInfixNode, h1, h2]
  hident := by intro v; rfl
  hint := by intro v; rfl
  hlet := by intro v r h1; simp [noInfixNode, h1]
  hvar := by intro v r h1; simp [noInfixNode, h1]
  hprop := by intro r v h1; simp [noInfixNode, h1]

/-- `a . b . c ;`. -/
def c4abcToks : List GTok := [idG "a", dotG, idG "b", dotG, idG "c", termG]

/-- `a . b ( ) ;`. -/
def c4emptyCallToks : List GTok := [idG "a", dotG, idG "b", lpG, rpG, termG]

/-- `a ( 1 , 2 ) . b ;`. -/
def c4mixedToks : List GTok :=
  [idG "a", lpG, intG "1", commaG, intG "2", rpG, dotG, idG "b", termG]

/-- `a + b ;`. -/
def c10toks : List GTok := [idG "a", plusG, idG "b", termG]

/-- `f ( 1 ) = 1 ;` — a call target reaching the assignment reduction. -/
def c2callAssignToks : List GTok :=
  [idG "f", lpG, intG "1", rpG, eqG, intG "1", termG]

/-- `x = 1 ;`. -/
def c2okToks : List GTok := [idG "x", eqG, intG "1", termG]

end Gen

/-- C1: parsing `a * b = c + d` yields
`Multiply(a, Assignment(b, Add(c, d)))` — the assignment's right-hand side
greedily consumes `c + d` — and not `Assignment(Multiply(a,b), Add(c,d))`. -/
theorem c1_greedy_assignment :
    HW.parse 32 HW.c1toks =
      .ok [.infixExpr (.identifier "a") .multiply
            (.assignment (.identifier "b")
              (.infixExpr (.identifier "c") .add (.identifier "d")))] ∧
    (HW.PNode.infixExpr (.identifier "a") .multiply
        (.assignment (.identifier "b")
          (.infixExpr (.identifier "c") .add (.identifier "d"))) ≠
      HW.PNode.assignment
        (.infixExpr (.identifier "a") .multiply (.identifier "b"))
        (.infixExpr (.identifier "c") .add (.identifier "d"))) := by
  exact ⟨by rfl, by decide⟩

/-- `peek` on a buffered state returns the buffer and does nothing. -/
theorem peek_of_peeking (s : HW.PSt) (h : s.peeking = true) :
    HW.peek s = (s.peekedToken, s) := by
  simp [HW.peek, h]

/-- `peek` is idempotent. -/
theorem peek_idem (s : HW.PSt) : HW.peek (HW.peek s).2 = HW.peek s := by
  by_cases h : s.peeking
  · simp [HW.peek, h]
  · cases ht : s.toks <;> simp [HW.peek, HW.yylex, h, ht]

/-- C3: both binary operators are right-associative: `a + b + c` parses as
`Add(a, Add(b, c))` and `a * b * c` parses as
`Multiply(a, Multiply(b, c))`. -/
theorem c3_right_associativity :
    HW.parse 32 HW.c3plusToks =
      .ok [.infixExpr (.identifier "a") .add
            (.infixExpr (.identifier "b") .add (.identifier "c"))] ∧
    HW.parse 32 HW.c3starToks =
      .ok [.infixExpr (.identifier "a") .multiply
            (.infixExpr (.identifier "b") .multiply (.identifier "c"))] :=
  ⟨rfl, rfl⟩

/-- C9: `let x = 1 + 2 * 3` parses to the single root statement
`Let(x, Add(1, Multiply(2, 3)))` — multiplication binds tighter than
addition. -/
theorem c9_end_to_end_precedence :
    HW.parse 32 HW.c9toks =
      .ok [.plet "x"
            (.infixExpr (.integerLiteral 1) .add
              (.infixExpr (.integerLiteral 2) .multiply (.integerLiteral 3)))] :=
  rfl

/-- C6 counterexample: on `f(1, 2` the hand-written parser fails with the
*unrecognized-token* fatal error at the `(` token (its grammar has no call
syntax), not with an unexpected-token error reporting end-of-input where
`)` was expected. -/
theorem c6_counterexample :
    HW.parse 32 HW.c6toks = .error (.unrecognizedToken .tParentLeft 1) ∧
    HW.parse 32 HW.c6toks ≠ .error (.unexpectedToken .tParentRight .tEOF 1) :=
  ⟨rfl, by decide⟩

/-- C6 amended: whenever `expect` requires a token kind and `next` delivers
a different one, the parse fails fatally with the unexpected-token
diagnostic carrying the expected kind, the actual kind and the source line
(no tree is returned); the input `f(1, 2`, however, fails with the
unrecognized-token error at `(`, because the hand-written grammar has no
call syntax at all. -/
theorem c6_fatal_unexpected_token :
    (∀ expected s, (HW.next s).1 ≠ expected →
      HW.expect expected s =
        .error (.unexpectedToken expected (HW.next s).1 (HW.next s).2.lineno)) ∧
    HW.parse 32 HW.c6toks = .error (.unrecognizedToken .tParentLeft 1) := by
  constructor
  · intro expected s h
    simp only [HW.expect]
    rw [if_neg h]
  · rfl

/-- C6 amended, witness. -/
theorem c6_fatal_unexpected_token_witness :
    HW.expect .tEquals (HW.initSt [HW.idT "a"]) =
      .error (.unexpectedToken .tEquals .tIdentifier 1) ∧
    HW.parse 32 HW.c6toks = .error (.unrecognizedToken .tParentLeft 1) :=
  ⟨c6_fatal_unexpected_token.1 .tEquals (HW.initSt [HW.idT "a"]) (by decide),
   c6_fatal_unexpected_token.2⟩

/-- C7: the lookahead buffer: any number of consecutive peeks returns the
same token as a single peek and leaves the same state (so at most one token
is drawn from the token source: one when nothing was buffered, none when a
peek was already buffered); `next` drains a buffered peek without touching
the token source, and otherwise reads a fresh token directly from it. -/
theorem c7_lookahead_buffer :
    (∀ n s, HW.peekN n s = HW.peek s) ∧
    (∀ s : HW.PSt, (HW.peek s).2.toks =
      if s.peeking then s.toks else s.toks.tail) ∧
    (∀ s : HW.PSt, s.peeking = true →
      HW.next s = (s.peekedToken,
        { s with currentToken := s.peekedToken, currentText := s.peekedText,
                 peeking := false })) ∧
    (∀ s : HW.PSt, s.peeking = false →
      HW.next s = ((HW.yylex s).1,
        { (HW.yylex s).2 with currentToken := (HW.yylex s).1 })) := by
  refine ⟨?_, ?_, ?_, ?_⟩
  · intro n
    induction n with
    | zero => intro s; rfl
    | succ n ih =>
      intro s
      show HW.peekN n (HW.peek s).2 = _
      rw [ih (HW.peek s).2, peek_idem]
  · intro s
    by_cases h : s.peeking
    · simp [HW.peek, h]
    · cases ht : s.toks <;> simp [HW.peek, HW.yylex, h, ht]
  · intro s h
    simp [HW.next, h]
  · intro s h
    simp [HW.next, h]

/-- C7, witness. -/
theorem c7_lookahead_buffer_witness :
    HW.peekN 3 (HW.initSt [HW.idT "a"]) = HW.peek (HW.initSt [HW.idT "a"]) ∧
    HW.next HW.c7peekSt = (.tPlus,
      { HW.c7peekSt with currentToken := .tPlus, currentText := "+",
                         peeking := false }) ∧
    HW.next (HW.initSt [HW.idT "a"]) = ((HW.yylex (HW.initSt [HW.idT "a"])).1,
      { (HW.yylex (HW.initSt [HW.idT "a"])).2 with
          currentToken := (HW.yylex (HW.initSt [HW.idT "a"])).1 }) :=
  ⟨c7_lookahead_buffer.1 3 (HW.initSt [HW.idT "a"]),
   c7_lookahead_buffer.2.2.1 HW.c7peekSt rfl,
   c7_lookahead_buffer.2.2.2 (HW.initSt [HW.idT "a"]) rfl⟩

/-- C8: an integer-literal token becomes an `IntegerLiteral` node whose
value is `std::stoll` of the token's lexeme; when that conversion fails
(no digits, or outside the 64-bit signed range) the parse fails fatally.
End to end, the largest `long long` parses and one past it is fatal. -/
theorem c8_integer_literal_conversion :
    (∀ fuel (s : HW.PSt) v, HW.stoll (HW.text s) = .ok v →
      HW.parseLiteral (fuel + 1) .tInteger s = .ok (.integerLiteral v, s)) ∧
    (∀ fuel (s : HW.PSt) e, HW.stoll (HW.text s) = .error e →
      HW.parseLiteral (fuel + 1) .tInteger s = .error .stollError) ∧
    HW.parse 8 [HW.intT "9223372036854775807"] =
      .ok [.integerLiteral 9223372036854775807] ∧
    HW.parse 8 [HW.intT "9223372036854775808"] = .error .stollError := by
  refine ⟨?_, ?_, rfl, rfl⟩
  · intro fuel s v h
    simp only [HW.parseLiteral]
    rw [h]
  · intro fuel s e h
    simp only [HW.parseLiteral]
    rw [h]

/-- C8, witness. -/
theorem c8_integer_literal_conversion_witness :
    HW.parseLiteral 1 .tInteger HW.c8okSt = .ok (.integerLiteral 42, HW.c8okSt) ∧
    HW.parseLiteral 1 .tInteger HW.c8badSt = .error .stollError :=
  ⟨c8_integer_literal_conversion.1 0 HW.c8okSt 42 rfl,
   c8_integer_literal_conversion.2.1 0 HW.c8badSt () rfl⟩

/-- C4 counterexample: in the generated parser, `a.b()` is a *syntax
error* — `call_arguments` requires at least one expression, so a call with
an empty argument list never parses, contradicting the claimed
`Call(Property(Identifier(a), b), [])`. -/
theorem c4_counterexample :
    Gen.parse 128 Gen.c4emptyCallToks = .error .syntaxError ∧
    ∀ l, Gen.parse 128 Gen.c4emptyCallToks ≠ .ok (some l) :=
  ⟨rfl, fun _ h => Except.noConfusion h⟩

/-- C4 amended: postfix chains compose left-to-right: `a.b.c` parses to
`Property(Property(Identifier(a), b), c)` and `a(1,2).b` parses to
`Property(Call(Identifier(a), [1, 2]), b)`; but a call with an *empty*
argument list such as `a.b()` is a syntax error, because the generated
grammar's `call_arguments` production demands at least one expression. -/
theorem c4_chain_composition :
    Gen.parse 128 Gen.c4abcToks =
      .ok (some [.property (.property (.identifier "a") "b") "c"]) ∧
    Gen.parse 128 Gen.c4mixedToks =
      .ok (some [.property
            (.call (.identifier "a") [.integerLiteral "1", .integerLiteral "2"])
            "b"]) ∧
    Gen.parse 128 Gen.c4emptyCallToks = .error .syntaxError :=
  ⟨rfl, rfl, rfl⟩

/-- `parseIdentifier` only ever returns an identifier node. -/
theorem parseIdentifier_ok_noUnknown (t : HW.Tok) (s : HW.PSt)
    (p : HW.PNode × HW.PSt) (h : HW.parseIdentifier t s = .ok p) :
    p.1.noUnknown = true := by
  simp only [HW.parseIdentifier] at h
  split at h
  · cases h; rfl
  · exact Except.noConfusion h

/-- None of the statement-level grammar rules of the hand-written parser
can return a tree containing the `Unknown` sentinel. -/
theorem hw_parse_ok_noUnknown : ∀ fuel,
    (∀ t s r, HW.parseStatement fuel t s = .ok r → r.1.noUnknown = true) ∧
    (∀ t s r, HW.parseExpression fuel t s = .ok r → r.1.noUnknown = true) ∧
    (∀ t s r, HW.parseAddition fuel t s = .ok r → r.1.noUnknown = true) ∧
    (∀ t s r, HW.parseMultiplication fuel t s = .ok r → r.1.noUnknown = true) ∧
    (∀ t s r, HW.parseLiteral fuel t s = .ok r → r.1.noUnknown = true) ∧
    (∀ t s r, HW.parseAssignment fuel t s = .ok r → r.1.noUnknown = true) ∧
    (∀ t s r, HW.parseLet fuel t s = .ok r → r.1.noUnknown = true) ∧
    (∀ t s r, HW.parseVar fuel t s = .ok r → r.1.noUnknown = true) := by
  intro fuel
  induction fuel with
  | zero =>
    exact ⟨fun _ _ _ h => Except.noConfusion h, fun _ _ _ h => Except.noConfusion h,
           fun _ _ _ h => Except.noConfusion h, fun _ _ _ h => Except.noConfusion h,
           fun _ _ _ h => Except.noConfusion h, fun _ _ _ h => Except.noConfusion h,
           fun _ _ _ h => Except.noConfusion h, fun _ _ _ h => Except.noConfusion h⟩
  | succ f ih =>
    obtain ⟨ihS, ihE, ihA, ihM, ihL, ihAs, ihLet, ihVar⟩ := ih
    have hAs : ∀ t s r, HW.parseAssignment (f + 1) t s = .ok r →
        r.1.noUnknown = true := by
      intro t s r h
      simp only [HW.parseAssignment] at h
      split at h
      · exact Except.noConfusion h
      · rename_i stres lhs s1 heqI
        split at h
        · split at h
          · exact Except.noConfusion h
          · split at h
            · exact Except.noConfusion h
            · rename_i hP e1 t2 s2 heqE e2 rhs s3 heqX
              cases h
              simp only [HW.PNode.noUnknown, Bool.and_eq_true]
              exact ⟨parseIdentifier_ok_noUnknown t s _ heqI, ihE _ _ _ heqX⟩
        · cases h
          exact parseIdentifier_ok_noUnknown t s (lhs, s1) heqI
    have hLit : ∀ t s r, HW.parseLiteral (f + 1) t s = .ok r →
        r.1.noUnknown = true := by
      intro t s r h
      simp only [HW.parseLiteral] at h
      split at h
      · split at h
        · exact Except.noConfusion h
        · cases h; rfl
      · exact ihAs _ _ _ h
    have hMul : ∀ t s r, HW.parseMultiplication (f + 1) t s = .ok r →
        r.1.noUnknown = true := by
      intro t s r h
      simp only [HW.parseMultiplication] at h
      split at h
      · exact Except.noConfusion h
      · rename_i stres lhs s1 heqL
        split at h
        · split at h
          · exact Except.noConfusion h
          · split at h
            · exact Except.noConfusion h
            · rename_i hP e1 t2 s2 heqE e2 rhs s3 heqX
              cases h
              simp only [HW.PNode.noUnknown, Bool.and_eq_true]
              exact ⟨ihL _ _ _ heqL, ihM _ _ _ heqX⟩
        · cases h
          exact ihL t s (lhs, s1) heqL
    have hAdd : ∀ t s r, HW.parseAddition (f + 1) t s = .ok r →
        r.1.noUnknown = true := by
      intro t s r h
      simp only [HW.parseAddition] at h
      split at h
      · exact Except.noConfusion h
      · rename_i stres lhs s1 heqL
        split at h
        · split at h
          · exact Except.noConfusion h
          · split at h
            · exact Except.noConfusion h
            · rename_i hP e1 t2 s2 heqE e2 rhs s3 heqX
              cases h
              simp only [HW.PNode.noUnknown, Bool.and_eq_true]
              exact ⟨ihM _ _ _ heqL, ihA _ _ _ heqX⟩
        · cases h
          exact ihM t s (lhs, s1) heqL
    have hExp : ∀ t s r, HW.parseExpression (f + 1) t s = .ok r →
        r.1.noUnknown = true := by
      intro t s r h
      simp only [HW.parseExpression] at h
      exact ihA _ _ _ h
    have hLet : ∀ t s r, HW.parseLet (f + 1) t s = .ok r →
        r.1.noUnknown = true := by
      intro t s r h
      simp only [HW.parseLet] at h
      split at h
      · exact Except.noConfusion h
      · split at h
        · exact Except.noConfusion h
        · split at h
          · exact Except.noConfusion h
          · rename_i e1 t1 s1 heq1 e2 t2 s2 heq2 e3 rhs s3 heqX
            cases h
            simp only [HW.PNode.noUnknown]
            exact ihE _ _ _ heqX
    have hVar : ∀ t s r, HW.parseVar (f + 1) t s = .ok r →
        r.1.noUnknown = true := by
      intro t s r h
      simp only [HW.parseVar] at h
      split at h
      · exact Except.noConfusion h
      · split at h
        · exact Except.noConfusion h
        · split at h
          · exact Except.noConfusion h
          · rename_i e1 t1 s1 heq1 e2 t2 s2 heq2 e3 rhs s3 heqX
            cases h
            simp only [HW.PNode.noUnknown]
            exact ihE _ _ _ heqX
    have hSt : ∀ t s r, HW.parseStatement (f + 1) t s = .ok r →
        r.1.noUnknown = true := by
      intro t s r h
      simp only [HW.parseStatement] at h
      split at h
      · exact ihLet _ _ _ h
      · exact ihVar _ _ _ h
      · exact ihE _ _ _ h
    exact ⟨hSt, hExp, hAdd, hMul, hLit, hAs, hLet, hVar⟩

/-- Every node list produced by the root loop is `Unknown`-free. -/
theorem hw_parseRoot_noUnknown : ∀ fuel s nodes s2,
    HW.parseRoot fuel s = .ok (nodes, s2) →
    nodes.all HW.PNode.noUnknown = true := by
  intro fuel
  induction fuel with
  | zero => intro s nodes s2 h; exact Except.noConfusion h
  | succ f ih =>
    intro s nodes s2 h
    simp only [HW.parseRoot] at h
    split at h
    · cases h; rfl
    · split at h
      · exact Except.noConfusion h
      · split at h
        · exact Except.noConfusion h
        · split at h
          · exact Except.noConfusion h
          · rename_i tok hne e1 node s1 heqS e2 node2 heqC e3 rest s2b heqR
            cases h
            have hnode2 : node2 = node := by
              simp only [HW.rootCheck] at heqC
              split at heqC
              · exact Except.noConfusion heqC
              · cases heqC; rfl
            simp only [List.all_cons, Bool.and_eq_true]
            refine ⟨?_, ih _ _ _ heqR⟩
            rw [hnode2]
            exact (hw_parse_ok_noUnknown f).1 _ _ _ heqS

/-- Shifted terminals carry no node. -/
theorem valInv_tokVal (P : Gen.GNode → Bool) (PL : List Gen.GNode → Bool)
    (t : Gen.GTok) : Gen.valInv P PL (Gen.tokVal t) := by
  unfold Gen.tokVal
  split
  · trivial
  · trivial

/-- A value known to satisfy the invariant yields a good node. -/
theorem valInv_getNode {P : Gen.GNode → Bool} {PL : List Gen.GNode → Bool}
    (hunk : P .unknown = true) {v : Gen.YYVal} (h : Gen.valInv P PL v) :
    P (Gen.getNode v) = true := by
  cases v with
  | node n => exact h
  | str s => exact hunk
  | nodes l => exact hunk
  | vunit => exact hunk

/-- A value known to satisfy the invariant yields a good node list. -/
theorem valInv_getNodes {P : Gen.GNode → Bool} {PL : List Gen.GNode → Bool}
    (hnil : PL [] = true) {v : Gen.YYVal} (h : Gen.valInv P PL v) :
    PL (Gen.getNodes v) = true := by
  cases v with
  | node n => exact hnil
  | str s => exact hnil
  | nodes l => exact h
  | vunit => exact hnil

/-- Indexing a stack of invariant-satisfying values is safe. -/
theorem stack_all_getD (P : Gen.GNode → Bool) (PL : List Gen.GNode → Bool) :
    ∀ (l : List (Nat × Gen.YYVal)) (i : Nat),
      (∀ p ∈ l, Gen.valInv P PL p.2) →
      Gen.valInv P PL ((l.getD i (0, .vunit)).2) := by
  intro l
  induction l with
  | nil => intro i h; simp only [List.getD, List.getElem?_nil, Option.getD_none]; trivial
  | cons p ps ih =>
    intro i h
    cases i with
    | zero =>
      simp only [List.getD_cons_zero]
      exact h p (List.mem_cons_self p ps)
    | succ i =>
      simp only [List.getD_cons_succ]
      exact ih i (fun q hq => h q (List.mem_cons_of_mem p hq))

/-- `slot` respects the stack invariant. -/
theorem slot_inv (P : Gen.GNode → Bool) (PL : List Gen.GNode → Bool)
    (st : Gen.GSt) (h : ∀ p ∈ st.stack, Gen.valInv P PL p.2) (i : Nat) :
    Gen.valInv P PL (Gen.slot st i) :=
  stack_all_getD P PL st.stack i h

/-- Every semantic action produces a value (and possibly a root) satisfying
any predicate closed under the parser's constructions. -/
theorem reduceVal_inv (C : Gen.NodePred) :
    ∀ r (st : Gen.GSt) v rt, (∀ p ∈ st.stack, Gen.valInv C.P C.PL p.2) →
      Gen.reduceVal r st = .ok (v, rt) →
      Gen.valInv C.P C.PL v ∧ (∀ l, rt = some l → C.PL l = true) := by
  intro r st v rt hstack h
  have hs : ∀ i, Gen.valInv C.P C.PL (Gen.slot st i) :=
    fun i => slot_inv _ _ st hstack i
  have hN : ∀ i, C.P (Gen.getNode (Gen.slot st i)) = true :=
    fun i => valInv_getNode C.hunk (hs i)
  have hL : ∀ i, C.PL (Gen.getNodes (Gen.slot st i)) = true :=
    fun i => valInv_getNodes C.hnil (hs i)
  unfold Gen.reduceVal at h
  split at h
  · cases h; exact ⟨trivial, fun l hl => by cases hl; exact hL 0⟩
  · cases h; exact ⟨C.hcons _ _ (hN 1) (hL 0), fun l hl => Option.noConfusion hl⟩
  · cases h; exact ⟨C.hcons _ _ (hN 0) C.hnil, fun l hl => Option.noConfusion hl⟩
  · cases h; exact ⟨hN 1, fun l hl => Option.noConfusion hl⟩
  · cases h; exact ⟨hN 1, fun l hl => Option.noConfusion hl⟩
  · cases h; exact ⟨hN 1, fun l hl => Option.noConfusion hl⟩
  · cases h; exact ⟨C.hlet _ _ (hN 0), fun l hl => Option.noConfusion hl⟩
  · cases h; exact ⟨C.hvar _ _ (hN 0), fun l hl => Option.noConfusion hl⟩
  · cases h; exact ⟨hN 0, fun l hl => Option.noConfusion hl⟩
  · cases h; exact ⟨hN 2, fun l hl => Option.noConfusion hl⟩
  · cases h; exact ⟨hN 0, fun l hl => Option.noConfusion hl⟩
  · split at h
    · exact Except.noConfusion h
    · rename_i n heq
      cases h
      refine ⟨?_, fun l hl => Option.noConfusion hl⟩
      simp only [Gen.mkPAssignment] at heq
      split at heq
      · exact Except.noConfusion heq
      · rename_i hC
        cases heq
        exact C.hassign _ _ (by simpa using hC) (hN 2) (hN 0)
  · cases h; exact ⟨hN 0, fun l hl => Option.noConfusion hl⟩
  · cases h; exact ⟨C.hcall _ _ (hN 1) (hL 0), fun l hl => Option.noConfusion hl⟩
  · cases h; exact ⟨C.hprop _ _ (hN 1), fun l hl => Option.noConfusion hl⟩
  · cases h; exact ⟨hN 0, fun l hl => Option.noConfusion hl⟩
  · cases h; exact ⟨hL 1, fun l hl => Option.noConfusion hl⟩
  · cases h; exact ⟨trivial, fun l hl => Option.noConfusion hl⟩
  · cases h; exact ⟨C.hcons _ _ (hN 2) (hL 0), fun l hl => Option.noConfusion hl⟩
  · cases h; exact ⟨C.hcons _ _ (hN 0) C.hnil, fun l hl => Option.noConfusion hl⟩
  · cases h; exact ⟨hN 0, fun l hl => Option.noConfusion hl⟩
  · cases h; exact ⟨hN 0, fun l hl => Option.noConfusion hl⟩
  · cases h; exact ⟨C.hident _, fun l hl => Option.noConfusion hl⟩
  · cases h; exact ⟨C.hint _, fun l hl => Option.noConfusion hl⟩
  · cases h; exact ⟨trivial, fun l hl => Option.noConfusion hl⟩

/-- One reduction step preserves the invariant. -/
theorem reduceBy_inv (C : Gen.NodePred) :
    ∀ r (st st' : Gen.GSt), Gen.stInv C.P C.PL st →
      Gen.reduceBy r st = .ok st' → Gen.stInv C.P C.PL st' := by
  intro r st st' hst h
  unfold Gen.reduceBy at h
  split at h
  · exact Except.noConfusion h
  · rename_i p v rt heq
    cases h
    obtain ⟨hv, hrt⟩ := reduceVal_inv C r st v rt hst.1 heq
    constructor
    · intro q hq
      rcases List.mem_cons.mp hq with hq | hq
      · rw [hq]
        exact hv
      · exact hst.1 q (List.drop_subset _ _ hq)
    · intro l hl
      cases rt with
      | some l2 =>
        simp only at hl
        exact hrt l (by rw [hl])
      | none => exact hst.2 l hl

/-- Fetching the lookahead leaves the stack and the root untouched. -/
theorem stInv_getLa (P : Gen.GNode → Bool) (PL : List Gen.GNode → Bool)
    (st : Gen.GSt) (h : Gen.stInv P PL st) : Gen.stInv P PL (Gen.getLa st).2 := by
  unfold Gen.getLa
  split
  · exact h
  · split
    · exact h
    · exact h

/-- A `cont` outcome of one automaton iteration preserves the invariant. -/
theorem gstep_cont_inv (C : Gen.NodePred) :
    ∀ st st', Gen.stInv C.P C.PL st → Gen.gstep st = .cont st' →
      Gen.stInv C.P C.PL st' := by
  intro st st' hst h
  simp only [Gen.gstep] at h
  split at h
  · exact Gen.Step.noConfusion h
  · split at h
    · split at h
      · exact Gen.Step.noConfusion h
      · split at h
        · exact Gen.Step.noConfusion h
        · rename_i st1 heq
          cases h
          exact reduceBy_inv C _ st st' hst heq
    · split at h
      · split at h
        · exact Gen.Step.noConfusion h
        · split at h
          · exact Gen.Step.noConfusion h
          · rename_i st2 heq
            cases h
            exact reduceBy_inv C _ _ st' (stInv_getLa C.P C.PL st hst) heq
      · split at h
        · split at h
          · exact Gen.Step.noConfusion h
          · split at h
            · exact Gen.Step.noConfusion h
            · rename_i st2 heq
              cases h
              exact reduceBy_inv C _ _ st' (stInv_getLa C.P C.PL st hst) heq
        · cases h
          have hla := stInv_getLa C.P C.PL st hst
          constructor
          · intro q hq
            rcases List.mem_cons.mp hq with hq | hq
            · rw [hq]
              exact valInv_tokVal C.P C.PL _
            · exact hla.1 q hq
          · exact hla.2

/-- An `accept` outcome returns the root, which satisfies the invariant. -/
theorem gstep_accept_inv (C : Gen.NodePred) :
    ∀ st r, Gen.stInv C.P C.PL st → Gen.gstep st = .accept r →
      ∀ l, r = some l → C.PL l = true := by
  intro st r hst h l hl
  simp only [Gen.gstep] at h
  split at h
  · cases h
    exact hst.2 l hl
  · split at h
    · split at h
      · exact Gen.Step.noConfusion h
      · split at h
        · exact Gen.Step.noConfusion h
        · exact Gen.Step.noConfusion h
    · split at h
      · split at h
        · exact Gen.Step.noConfusion h
        · split at h
          · exact Gen.Step.noConfusion h
          · exact Gen.Step.noConfusion h
      · split at h
        · split at h
          · exact Gen.Step.noConfusion h
          · split at h
            · exact Gen.Step.noConfusion h
            · exact Gen.Step.noConfusion h
        · exact Gen.Step.noConfusion h

/-- Any root list a successful run of the driver loop returns satisfies
every predicate closed under the parser's constructions. -/
theorem gloop_inv (C : Gen.NodePred) :
    ∀ fuel st l, Gen.stInv C.P C.PL st →
      Gen.gloop fuel st = .ok (some l) → C.PL l = true := by
  intro fuel
  induction fuel with
  | zero => intro st l hst h; exact Except.noConfusion h
  | succ f ih =>
    intro st l hst h
    simp only [Gen.gloop] at h
    split at h
    · rename_i r heq
      cases h
      exact gstep_accept_inv C st _ hst heq l rfl
    · exact Except.noConfusion h
    · rename_i st1 heq
      exact ih st1 l (gstep_cont_inv C st st1 hst heq) h

/-- The engine's start state satisfies every invariant. -/
theorem stInv_start (P : Gen.GNode → Bool) (PL : List Gen.GNode → Bool)
    (toks : List Gen.GTok) :
    Gen.stInv P PL { stack := [(0, .vunit)], la := none, toks := toks,
                     root := none } := by
  constructor
  · intro p hp
    simp only [List.mem_singleton] at hp
    rw [hp]
    trivial
  · intro l hl
    exact Option.noConfusion hl

/-- C2: constructing an `Assignment` whose target is a `Call` fails fatally
with the invalid-assignment-target diagnostic and never silently succeeds;
consequently no assignment in any tree the generated parser returns has a
call target.  Concretely, `f(1) = 1` dies in the `PAssignment`
constructor. -/
theorem c2_invalid_assignment_target :
    (∀ lhs rhs, lhs.isCall = true →
      Gen.mkPAssignment lhs rhs = .error .assignToCall) ∧
    (∀ fuel toks l, Gen.parse fuel toks = .ok (some l) →
      Gen.noCallTgtList l = true) ∧
    Gen.parse 128 Gen.c2callAssignToks = .error .assignToCall := by
  refine ⟨?_, ?_, rfl⟩
  · intro lhs rhs h
    unfold Gen.mkPAssignment
    rw [if_pos h]
  · intro fuel toks l h
    simp only [Gen.parse] at h
    exact gloop_inv Gen.noCallPred fuel _ l (stInv_start _ _ toks) h

/-- C2, witness. -/
theorem c2_invalid_assignment_target_witness :
    Gen.mkPAssignment (.call (.identifier "f") []) (.integerLiteral "1") =
      .error .assignToCall ∧
    Gen.noCallTgtList [.assignment (.identifier "x") (.integerLiteral "1")] =
      true :=
  ⟨c2_invalid_assignment_target.1 (.call (.identifier "f") [])
      (.integerLiteral "1") rfl,
   c2_invalid_assignment_target.2.1 128 Gen.c2okToks
      [.assignment (.identifier "x") (.integerLiteral "1")] rfl⟩

/-- C5: whenever the hand-written `parse` returns a root, no node reachable
from it is the `Unknown` sentinel; and the root loop's guard turns any
`Unknown` statement node into the fatal unmatched-node error instead of
storing it. -/
theorem c5_no_unknown_invariant :
    (∀ fuel toks nodes, HW.parse fuel toks = .ok nodes →
      nodes.all HW.PNode.noUnknown = true) ∧
    (∀ (node : HW.PNode) (s : HW.PSt), node.isUnknown = true →
      HW.rootCheck node s = .error (.unmatchedNode s.lineno)) := by
  constructor
  · intro fuel toks nodes h
    simp only [HW.parse] at h
    split at h
    · exact Except.noConfusion h
    · rename_i p l s2 heq
      cases h
      exact hw_parseRoot_noUnknown fuel _ _ _ heq
  · intro node s h
    simp [HW.rootCheck, h]

/-- C5, witness. -/
theorem c5_no_unknown_invariant_witness :
    ([HW.PNode.identifier "a"].all HW.PNode.noUnknown = true) ∧
    HW.rootCheck .unknown (HW.initSt []) = .error (.unmatchedNode 1) :=
  ⟨c5_no_unknown_invariant.1 32 [HW.idT "a"] [HW.PNode.identifier "a"] rfl,
   c5_no_unknown_invariant.2 .unknown (HW.initSt []) rfl⟩

/-- C10: the generated parser's reduction of `infix := infix infix_op infix`
(rule 11, a three-symbol rule) returns the left operand's node unchanged,
discarding the operator and the right operand; consequently no tree it
returns contains an `Infix` node, and `a + b` parses to `Identifier(a)`
rather than `Add(a, b)` — diverging from the hand-written parser. -/
theorem c10_generated_infix_reduction :
    (∀ st : Gen.GSt, Gen.reduceVal 11 st =
      .ok (.node (Gen.getNode (Gen.slot st 2)), none)) ∧
    Gen.yyr2.getD 11 0 = 3 ∧
    (∀ fuel toks l, Gen.parse fuel toks = .ok (some l) →
      Gen.noInfixNodeList l = true) ∧
    Gen.parse 128 Gen.c10toks = .ok (some [.identifier "a"]) := by
  refine ⟨fun st => rfl, rfl, ?_, rfl⟩
  intro fuel toks l h
  simp only [Gen.parse] at h
  exact gloop_inv Gen.noInfixPred fuel _ l (stInv_start _ _ toks) h

/-- C10, witness. -/
theorem c10_generated_infix_reduction_witness :
    Gen.noInfixNodeList [.identifier "a"] = true :=
  c10_generated_infix_reduction.2.2.1 128 Gen.c10toks [.identifier "a"] rfl
